import Mathlib

/-!
Verification of the structured-metric encoder in
`src/aws/cloudwatch/structured_metric.go` (package `cloudwatch`).

The Go code is shallowly embedded:
* Go `map` values are association lists with pairwise-distinct keys;
  since Go's map iteration order is unspecified, every function that
  iterates a map takes the association list in an arbitrary order, and
  facts that hold for the real program hold for every permutation of
  the list (with the per-map no-duplicate-key invariant as hypothesis).
* `interface{}` values are `GoValue`: either a JSON-marshalable value
  or a value `encoding/json` rejects (e.g. a channel), carrying the
  type name used in the error message.
* `encoding/json`'s marshaling of a `map[string]interface{}` sorts the
  keys; the embedding canonicalizes the built map the same way.
* Writes performed by `fmt.Printf` go to the process standard output;
  the sink of `PublishToSink` is a separate channel unless the caller
  passes standard output itself (as `Publish` does).
* The wall clock (`time.Now().UnixNano()/int64(time.Millisecond)`) is
  an explicit `now : Int` parameter (milliseconds since the epoch).
-/

namespace StructuredMetric

/-- JSON values, the image of Go values under `encoding/json`. -/
inductive JValue where
  | str : String → JValue
  | num : Int → JValue
  | arr : List JValue → JValue
  | obj : List (String × JValue) → JValue


/-- A Go `interface{}` value as seen by `encoding/json`: either it
marshals to some JSON value, or `json.Marshal` rejects it (for example
a channel or a function), in which case we record the type name that
appears in the error `json: unsupported type: <t>`. -/
inductive GoValue where
  | json : JValue → GoValue
  | unsupported : String → GoValue


/-- `MetricValue` from the source: a value (`interface{}`) and a unit
(`MetricUnit`, a string). -/
structure MetricValue where
  Value : GoValue
  Unit : String


/-- `MetricDirective` from the source.  The two Go maps are association
lists with (invariant) pairwise-distinct keys; `namespace` is a Go
keyword-free field name, here `nspace`. -/
structure MetricDirective where
  Dimensions : List (String × String)
  Metrics : List (String × MetricValue)
  nspace : String


/-- `EmbeddedMetric` from the source: an ordered list of owned
directives plus the property bag. -/
structure EmbeddedMetric where
  metrics : List MetricDirective
  properties : List (String × GoValue)


/-- Go map assignment `m[k] = v`: overwrite the entry for `k` if the
key is present, otherwise add the binding. -/
def mapSet (m : List (String × α)) (k : String) (v : α) : List (String × α) :=
  if m.any (fun p => p.1 == k) then
    m.map (fun p => if p.1 == k then (k, v) else p)
  else
    m ++ [(k, v)]

/-- Go map read with the zero-value default for strings:
`m[k]` is `""` when `k` is absent.  When duplicate keys occur in the
association list the last binding wins, matching overwrite semantics. -/
def lookupLast (m : List (String × α)) (k : String) : Option α :=
  (m.reverse.find? (fun p => p.1 == k)).map (fun p => p.2)

/-- `WithProperty` from the source: insert/overwrite the key in the
property bag and return the (mutated) receiver. -/
def withProperty (em : EmbeddedMetric) (key : String) (value : GoValue) :
    EmbeddedMetric :=
  { em with properties := mapSet em.properties key value }

/-- `NewMetricDirective` from the source: a fresh directive with the
given namespace, the supplied dimensions (or an empty map when the Go
caller passes `nil`), and an empty metrics map, appended to the owner's
directive list.  Returns the updated owner and the new directive. -/
def newMetricDirective (em : EmbeddedMetric) (nspace : String)
    (dimensions : Option (List (String × String))) :
    EmbeddedMetric × MetricDirective :=
  let md : MetricDirective :=
    { nspace := nspace, Dimensions := dimensions.getD [], Metrics := [] }
  ({ em with metrics := em.metrics ++ [md] }, md)

/-- `strings.Split s "="` on the character list of `s`: split at every
occurrence of `=` (always at least one part). -/
def splitEq : List Char → List (List Char)
  | [] => [[]]
  | c :: rest =>
    match splitEq rest with
    | [] => [[]]
    | h :: t => if c = '=' then [] :: h :: t else (c :: h) :: t

/-- `strings.Split entry "="` from the `init` function. -/
def goSplitOnEq (s : String) : List String :=
  (splitEq s.data).map (fun l => String.mk l)

/-- One step of the `init` loop: an entry that splits into exactly two
parts on `=` is stored, every other entry is skipped. -/
def envStep (m : List (String × String)) (e : String) :
    List (String × String) :=
  match goSplitOnEq e with
  | [k, v] => mapSet m k v
  | _ => m

/-- The `init` function: walk `os.Environ()` and keep exactly the
entries that split into two parts on `=`. -/
def buildEnvMap (environ : List String) : List (String × String) :=
  environ.foldl envStep []

/-- Go map read returning the string zero value for a missing key
(`envMap["X"]` is `""` when unset). -/
def envLookup (env : List (String × String)) (k : String) : String :=
  (lookupLast env k).getD ""

/-- Modelled from the spec: the struct
`emfAWSCloudWatchMetricsElemMetricsElem` is declared outside `src/`;
per the spec's output shape it marshals as an object with `Name` and
`Unit` string fields. -/
structure EmfAWSCloudWatchMetricsElemMetricsElem where
  Name : String
  Unit : String

/-- Modelled from the spec: the struct `emfAWSCloudWatchMetricsElem` is
declared outside `src/`; per the spec's output shape it marshals as an
object with `Namespace`, `Dimensions` (array of arrays of dimension
names) and `Metrics` fields. -/
structure EmfAWSCloudWatchMetricsElem where
  Dimensions : List (List String)
  Namespace : String
  Metrics : List EmfAWSCloudWatchMetricsElemMetricsElem

/-- Modelled from the spec: the struct `emfAWS` is declared outside
`src/`; per the spec's output shape it marshals as an object with an
integer `Timestamp` (milliseconds since the epoch) and the
`CloudWatchMetrics` array. -/
structure EmfAWS where
  Timestamp : Int
  CloudWatchMetrics : List EmfAWSCloudWatchMetricsElem

/-- The `CloudWatchMetrics` element built for one directive by the loop
in `MarshalJSON`: one `{Name, Unit}` entry per metric binding and one
single-element array per dimension binding, in map-iteration order
(the association list's order), with the directive's namespace. -/
def directiveElem (d : MetricDirective) : EmfAWSCloudWatchMetricsElem :=
  { Dimensions := d.Dimensions.map (fun p => [p.1])
    Namespace := d.nspace
    Metrics := d.Metrics.map (fun p => ⟨p.1, p.2.Unit⟩) }

/-- The `emfAWS` value built by `MarshalJSON`: the encode-time clock in
milliseconds and one element per owned directive, in creation order. -/
def emfOf (now : Int) (em : EmbeddedMetric) : EmfAWS :=
  { Timestamp := now
    CloudWatchMetrics := em.metrics.map directiveElem }

/-- JSON form of a `{Name, Unit}` metrics element. -/
def metricsElemToJ (m : EmfAWSCloudWatchMetricsElemMetricsElem) : JValue :=
  .obj [("Name", .str m.Name), ("Unit", .str m.Unit)]

/-- JSON form of one `CloudWatchMetrics` element. -/
def cwElemToJ (e : EmfAWSCloudWatchMetricsElem) : JValue :=
  .obj [("Namespace", .str e.Namespace),
        ("Dimensions", .arr (e.Dimensions.map (fun g => .arr (g.map .str)))),
        ("Metrics", .arr (e.Metrics.map metricsElemToJ))]

/-- JSON form of the `_aws` value. -/
def emfToJ (a : EmfAWS) : JValue :=
  .obj [("Timestamp", .num a.Timestamp),
        ("CloudWatchMetrics", .arr (a.CloudWatchMetrics.map cwElemToJ))]

/-- The initial literal of `MarshalJSON`: the two reserved fields, read
from the environment snapshot (empty strings when unset). -/
def reservedPairs (env : List (String × String)) : List (String × GoValue) :=
  [("log_group_name",
      GoValue.json (.str (envLookup env "AWS_LAMBDA_LOG_GROUP_NAME"))),
   ("log_steam_name",
      GoValue.json (.str (envLookup env "AWS_LAMBDA_LOG_STREAM_NAME")))]

/-- The sequence of assignments `MarshalJSON` performs on `jsonMap`
before the final `_aws` write: the two reserved fields, then the
property bag, then for each directive (in creation order) its metric
values and then its dimension values.  Later assignments to the same
key overwrite earlier ones, which `lookupLast` reflects. -/
def jsonMapWrites (env : List (String × String)) (em : EmbeddedMetric) :
    List (String × GoValue) :=
  reservedPairs env
  ++ em.properties
  ++ em.metrics.flatMap (fun d =>
      d.Metrics.map (fun p => (p.1, p.2.Value))
      ++ d.Dimensions.map (fun p => (p.1, GoValue.json (.str p.2))))

/-- All assignments to `jsonMap`, the `_aws` write last. -/
def allWrites (env : List (String × String)) (now : Int)
    (em : EmbeddedMetric) : List (String × GoValue) :=
  jsonMapWrites env em ++ [("_aws", GoValue.json (emfToJ (emfOf now em)))]

/-- Byte-order comparison of character lists (UTF-8 byte order agrees
with code-point order), as `encoding/json` sorts map keys. -/
def charsLe : List Char → List Char → Bool
  | [], _ => true
  | _ :: _, [] => false
  | a :: as, b :: bs => if a = b then charsLe as bs else decide (a < b)

/-- Key order used by `encoding/json` when marshaling a map. -/
def strLe (a b : String) : Prop := charsLe a.data b.data = true

instance : DecidableRel strLe :=
  fun a b => inferInstanceAs (Decidable (charsLe a.data b.data = true))

/-- The distinct keys of the built map, sorted as `encoding/json`
sorts map keys when marshaling. -/
def canonKeys (l : List (String × GoValue)) : List String :=
  List.insertionSort strLe (l.map Prod.fst).dedup

/-- The built map in its marshaled form: sorted distinct keys, each
with the value of the last assignment to it. -/
def canonPairs (l : List (String × GoValue)) : List (String × GoValue) :=
  (canonKeys l).filterMap (fun k => (lookupLast l k).map (fun v => (k, v)))

/-- `encoding/json` on one map value: the JSON form, or the error for
a value it cannot represent. -/
def tryValue : GoValue → Except String JValue
  | .json j => .ok j
  | .unsupported t => .error ("json: unsupported type: " ++ t)

/-- Marshal the canonicalized map entries, failing at the first (in
sorted key order) entry whose value `encoding/json` rejects. -/
def marshalPairs : List (String × GoValue) →
    Except String (List (String × JValue))
  | [] => .ok []
  | p :: rest => do
    let j ← tryValue p.2
    let r ← marshalPairs rest
    .ok ((p.1, j) :: r)

/-- `MarshalJSON` up to serialization: the top-level JSON object, or
the marshaling error. -/
def marshalJSONObj (env : List (String × String)) (now : Int)
    (em : EmbeddedMetric) : Except String JValue :=
  (marshalPairs (canonPairs (allWrites env now em))).map JValue.obj

/-- JSON string escaping for the characters the embedding cares about. -/
def escapeChar (c : Char) : String :=
  if c = '\\' then "\\\\"
  else if c = '"' then "\\\""
  else if c = '\n' then "\\n"
  else String.mk [c]

/-- A JSON string literal. -/
def quoteString (s : String) : String :=
  "\"" ++ String.join (s.data.map escapeChar) ++ "\""

mutual

/-- Serialization of a JSON value to its output bytes. -/
def jserialize : JValue → String
  | .str s => quoteString s
  | .num n => toString n
  | .arr xs => "[" ++ String.intercalate "," (jserializeList xs) ++ "]"
  | .obj kvs => "\x7b" ++ String.intercalate "," (jserializeObj kvs) ++ "\x7d"

/-- Serialization of the elements of a JSON array. -/
def jserializeList : List JValue → List String
  | [] => []
  | x :: xs => jserialize x :: jserializeList xs

/-- Serialization of the members of a JSON object. -/
def jserializeObj : List (String × JValue) → List String
  | [] => []
  | (k, v) :: rest => (quoteString k ++ ":" ++ jserialize v) :: jserializeObj rest

end

/-- `MarshalJSON` from the source: the serialized top-level object, or
the error `json.Marshal` reports. -/
def marshalJSON (env : List (String × String)) (now : Int)
    (em : EmbeddedMetric) : Except String String :=
  (marshalJSONObj env now em).map jserialize

/-- Output channels: the process standard output (where `fmt.Printf`
writes) and any other writer a caller may pass as the sink. -/
inductive Sink where
  | stdout : Sink
  | writer : Nat → Sink
deriving DecidableEq

/-- The warning text `PublishToSink` prints for an oversized dimension
set with `n` entries. -/
def dimensionWarningMsg (n : Nat) : String :=
  "DimensionSet for structured metric must not have more than 9 elements. Count: "
    ++ toString n

/-- The precondition walk of `PublishToSink`: one `fmt.Printf` warning
per directive with more than 9 dimensions, in directive order. -/
def dimensionWarnings (em : EmbeddedMetric) : List (Sink × String) :=
  em.metrics.filterMap (fun d =>
    if d.Dimensions.length > 9 then
      some (Sink.stdout, dimensionWarningMsg d.Dimensions.length)
    else none)

/-- The merge loop of `PublishToSink`: fold `WithProperty` over the
additional properties. -/
def mergeProps (em : EmbeddedMetric) (addl : List (String × GoValue)) :
    EmbeddedMetric :=
  addl.foldl (fun e p => withProperty e p.1 p.2) em

/-- The single line `PublishToSink` writes to the sink: the record on
success, the human-readable error line on marshaling failure. -/
def publishLine (env : List (String × String)) (now : Int)
    (em : EmbeddedMetric) : String :=
  match marshalJSON env now em with
  | .ok s => s
  | .error e => "Error publishing metric: " ++ e

/-- The `fmt.Printf` report after a failed sink write; `writeErr` is
the error value the sink's write returned, if any. -/
def writeFailureReports (writeErr : Option String) : List (Sink × String) :=
  match writeErr with
  | some e => [(Sink.stdout, "ERROR: " ++ e)]
  | none => []

/-- What one `PublishToSink` call does: the channel writes it performs
in order, and the receiver's state after the property merge. -/
structure PublishResult where
  events : List (Sink × String)
  finalEm : EmbeddedMetric

/-- `PublishToSink` from the source: warn about oversized dimension
sets, merge the additional properties, marshal, write the record (or
the error line) to the sink, and report a failed write to standard
output.  No error is returned to the caller. -/
def publishToSink (env : List (String × String)) (now : Int)
    (em : EmbeddedMetric) (addl : List (String × GoValue)) (sink : Sink)
    (writeErr : Option String) : PublishResult :=
  let em2 := mergeProps em addl
  { events := dimensionWarnings em ++ [(sink, publishLine env now em2)]
      ++ writeFailureReports writeErr
    finalEm := em2 }

/-- `Publish` from the source: `PublishToSink` with the sink fixed to
the process standard output. -/
def publish (env : List (String × String)) (now : Int)
    (em : EmbeddedMetric) (addl : List (String × GoValue))
    (writeErr : Option String) : PublishResult :=
  publishToSink env now em addl Sink.stdout writeErr

/-- Member lookup in a JSON object (the canonical output object has
pairwise-distinct keys, so the first match is the member). -/
def jObjLookup : JValue → String → Option JValue
  | .obj kvs, k => (kvs.find? (fun p => p.1 == k)).map (fun p => p.2)
  | _, _ => none

/-- The keys of a JSON object. -/
def jObjKeys : JValue → List String
  | .obj kvs => kvs.map Prod.fst
  | _ => []

instance : DecidableEq (Except String String) := fun a b =>
  match a, b with
  | .ok x, .ok y => decidable_of_iff (x = y) (by simp)
  | .error x, .error y => decidable_of_iff (x = y) (by simp)
  | .ok _, .error _ => isFalse (fun h => Except.noConfusion h)
  | .error _, .ok _ => isFalse (fun h => Except.noConfusion h)

/-- Modelled from the spec wording of the flat merge (the comparison
definition for the refinement claim): the flattened value one
directive contributes for a key — its dimension value if the key names
one of its dimensions (dimensions are written after metrics, so they
win inside a directive), otherwise its metric's raw value if the key
names one of its metrics. -/
def directiveValue (d : MetricDirective) (k : String) : Option GoValue :=
  ((lookupLast d.Dimensions k).map (fun v => GoValue.json (.str v))).or
    ((lookupLast d.Metrics k).map (fun m => m.Value))

/-- Modelled from the spec wording of the flat merge (the comparison
definition for the refinement claim): the merged value for a key —
the contribution of the last (in creation order) directive that
writes the key, else the property bag's value for it. -/
def specMergedValue (em : EmbeddedMetric) (k : String) : Option GoValue :=
  (em.metrics.reverse.findSome? (fun d => directiveValue d k)).or
    (lookupLast em.properties k)

/-- The value the two reserved fields give a key before any other
write: the environment-snapshot entry for the matching variable. -/
def reservedValue (env : List (String × String)) (k : String) :
    Option GoValue :=
  if k = "log_group_name" then
    some (GoValue.json (.str (envLookup env "AWS_LAMBDA_LOG_GROUP_NAME")))
  else if k = "log_steam_name" then
    some (GoValue.json (.str (envLookup env "AWS_LAMBDA_LOG_STREAM_NAME")))
  else none

/-- Two directives denote the same Go-map state: equal namespaces and
the same key/value bindings, possibly enumerated in different
iteration orders. -/
def DirectiveSameState (d1 d2 : MetricDirective) : Prop :=
  d1.nspace = d2.nspace ∧ d1.Metrics.Perm d2.Metrics
    ∧ d1.Dimensions.Perm d2.Dimensions

/-- Two `EmbeddedMetric` values denote the same state: the same
property bindings and pointwise same-state directives, in the same
creation order. -/
def SameState (em1 em2 : EmbeddedMetric) : Prop :=
  em1.properties.Perm em2.properties
    ∧ List.Forall₂ DirectiveSameState em1.metrics em2.metrics

/-- The Go-map invariant: no association list of the state repeats a
key. -/
def MapsNodup (em : EmbeddedMetric) : Prop :=
  (em.properties.map Prod.fst).Nodup
    ∧ ∀ d ∈ em.metrics,
        (d.Metrics.map Prod.fst).Nodup ∧ (d.Dimensions.map Prod.fst).Nodup

/-- Two encoded `CloudWatchMetrics` elements that agree up to the
order of the entries inside their `Metrics` and `Dimensions` arrays. -/
def ElemPermEquiv (e1 e2 : EmfAWSCloudWatchMetricsElem) : Prop :=
  e1.Namespace = e2.Namespace ∧ e1.Metrics.Perm e2.Metrics
    ∧ e1.Dimensions.Perm e2.Dimensions

/-- A concrete directive: one dimension and one metric. -/
def exD1 : MetricDirective :=
  { Dimensions := [("Stage", "prod")]
    Metrics := [("Latency", ⟨GoValue.json (JValue.num 42), "Milliseconds"⟩)]
    nspace := "MyService" }

/-- A concrete `EmbeddedMetric` with one property and one directive. -/
def exEm1 : EmbeddedMetric :=
  { metrics := [exD1]
    properties := [("requestId", GoValue.json (JValue.str "abc-123"))] }

/-- The encoded object of `exEm1` at clock 0 with an empty snapshot. -/
def exJ1 : JValue :=
  (marshalJSONObj [] 0 exEm1).toOption.getD (JValue.num 0)

/-- The empty `EmbeddedMetric`. -/
def exEm0 : EmbeddedMetric := { metrics := [], properties := [] }

/-- The encoded object of `exEm0` at clock 0 with an empty snapshot. -/
def exJ0 : JValue :=
  (marshalJSONObj [] 0 exEm0).toOption.getD (JValue.num 0)

/-- An `EmbeddedMetric` whose property bag collides with a reserved
field name. -/
def exEmColl : EmbeddedMetric :=
  { metrics := [], properties := [("log_group_name", GoValue.json (JValue.str "X"))] }

/-- The encoded object of `exEmColl`. -/
def exJColl : JValue :=
  (marshalJSONObj [] 0 exEmColl).toOption.getD (JValue.num 0)

/-- A directive with ten dimensions, exceeding the warning threshold. -/
def exD10 : MetricDirective :=
  { Dimensions := [("d0", "v"), ("d1", "v"), ("d2", "v"), ("d3", "v"),
      ("d4", "v"), ("d5", "v"), ("d6", "v"), ("d7", "v"), ("d8", "v"),
      ("d9", "v")]
    Metrics := []
    nspace := "Big" }

/-- An `EmbeddedMetric` owning the ten-dimension directive. -/
def exEm10 : EmbeddedMetric := { metrics := [exD10], properties := [] }

/-- The encoded object of `exEm10`. -/
def exJ10 : JValue :=
  (marshalJSONObj [] 0 exEm10).toOption.getD (JValue.num 0)

/-- An `EmbeddedMetric` holding a value `encoding/json` rejects. -/
def exEmBad : EmbeddedMetric :=
  { metrics := [], properties := [("chan", GoValue.unsupported "chan int")] }

/-- Two metric bindings enumerated in one iteration order. -/
def exDA : MetricDirective :=
  { Dimensions := []
    Metrics := [("A", ⟨GoValue.json (JValue.num 1), "Count"⟩),
      ("B", ⟨GoValue.json (JValue.num 2), "Count"⟩)]
    nspace := "N" }

/-- The same metric bindings enumerated in the other iteration order. -/
def exDB : MetricDirective :=
  { Dimensions := []
    Metrics := [("B", ⟨GoValue.json (JValue.num 2), "Count"⟩),
      ("A", ⟨GoValue.json (JValue.num 1), "Count"⟩)]
    nspace := "N" }

/-- The `EmbeddedMetric` owning `exDA`. -/
def exEmA : EmbeddedMetric := { metrics := [exDA], properties := [] }

/-- The `EmbeddedMetric` owning `exDB`: the same Go-map state as
`exEmA`, enumerated differently. -/
def exEmB : EmbeddedMetric := { metrics := [exDB], properties := [] }

/-! ### Lookup lemmas -/

theorem lookupLast_nil (k : String) :
    lookupLast ([] : List (String × α)) k = none := rfl

theorem lookupLast_append (a b : List (String × α)) (k : String) :
    lookupLast (a ++ b) k = (lookupLast b k).or (lookupLast a k) := by
  unfold lookupLast
  rw [List.reverse_append, List.find?_append]
  cases b.reverse.find? (fun p => p.1 == k) <;> simp

theorem lookupLast_singleton (a : String) (v : α) (k : String) :
    lookupLast [(a, v)] k = if a == k then some v else none := by
  unfold lookupLast
  by_cases h : a == k <;> simp [List.find?_cons, h]

theorem lookupLast_concat (l : List (String × α)) (a : String) (v : α)
    (k : String) :
    lookupLast (l ++ [(a, v)]) k
      = if a == k then some v else lookupLast l k := by
  rw [lookupLast_append, lookupLast_singleton]
  by_cases h : a == k <;> simp [h]

theorem lookupLast_map_snd (f : α → β) (l : List (String × α)) (k : String) :
    lookupLast (l.map (fun p => (p.1, f p.2))) k = (lookupLast l k).map f := by
  unfold lookupLast
  rw [← List.map_reverse, List.find?_map, Option.map_map, Option.map_map]
  rfl

theorem lookupLast_isSome_iff (l : List (String × α)) (k : String) :
    (lookupLast l k).isSome ↔ k ∈ l.map Prod.fst := by
  unfold lookupLast
  cases h : l.reverse.find? (fun p => p.1 == k) with
  | none =>
    rw [List.find?_eq_none] at h
    simp only [Option.map_none', Option.isSome_none, Bool.false_eq_true,
      false_iff]
    intro hk
    rcases List.mem_map.1 hk with ⟨p, hp, rfl⟩
    exact h p (List.mem_reverse.2 hp) (beq_iff_eq.2 rfl)
  | some p =>
    have hp := List.mem_of_find?_eq_some h
    have hpk := List.find?_some h
    simp only [Option.map_some', Option.isSome_some, true_iff]
    exact List.mem_map.2 ⟨p, List.mem_reverse.1 hp, beq_iff_eq.1 hpk⟩

theorem findSome?_fun_congr (g1 g2 : γ → Option β) (l : List γ)
    (h : ∀ d, g1 d = g2 d) : l.findSome? g1 = l.findSome? g2 := by
  induction l with
  | nil => rfl
  | cons a l ih => simp [List.findSome?_cons, h a, ih]

theorem findSome?_concat (g : γ → Option β) (l : List γ) (a : γ) :
    List.findSome? g (l ++ [a]) = (List.findSome? g l).or (g a) := by
  rw [List.findSome?_append]
  have hone : List.findSome? g [a] = g a := by
    cases h : g a <;> simp [List.findSome?_cons, h]
  rw [hone]

theorem lookupLast_flatMap (f : γ → List (String × α)) (l : List γ)
    (k : String) :
    lookupLast (l.flatMap f) k
      = l.reverse.findSome? (fun d => lookupLast (f d) k) := by
  induction l with
  | nil => rfl
  | cons a l ih =>
    rw [List.flatMap_cons, lookupLast_append, ih, List.reverse_cons,
      findSome?_concat]

theorem lookupLast_directiveBlock (d : MetricDirective) (k : String) :
    lookupLast (d.Metrics.map (fun p => (p.1, p.2.Value))
        ++ d.Dimensions.map (fun p => (p.1, GoValue.json (.str p.2)))) k
      = directiveValue d k := by
  rw [lookupLast_append,
    lookupLast_map_snd (fun m => m.Value) d.Metrics k,
    lookupLast_map_snd (fun v => GoValue.json (.str v)) d.Dimensions k,
    directiveValue]

theorem lookupLast_reservedPairs (env : List (String × String))
    (k : String) :
    lookupLast (reservedPairs env) k = reservedValue env k := by
  unfold reservedPairs reservedValue lookupLast
  by_cases h1 : k = "log_group_name"
  · subst h1
    simp [List.find?_cons]
  · by_cases h2 : k = "log_steam_name"
    · subst h2
      simp [List.find?_cons]
    · have e1 : ("log_group_name" == k) = false :=
        beq_eq_false_iff_ne.2 (fun e => h1 e.symm)
      have e2 : ("log_steam_name" == k) = false :=
        beq_eq_false_iff_ne.2 (fun e => h2 e.symm)
      simp [List.find?_cons, e1, e2, h1, h2]

theorem lookupLast_jsonMapWrites (env : List (String × String))
    (em : EmbeddedMetric) (k : String) :
    lookupLast (jsonMapWrites env em) k
      = (specMergedValue em k).or (reservedValue env k) := by
  unfold jsonMapWrites specMergedValue
  rw [lookupLast_append, lookupLast_append, lookupLast_flatMap,
    lookupLast_reservedPairs]
  have hcongr :
      (em.metrics.reverse.findSome? (fun d =>
        lookupLast (d.Metrics.map (fun p => (p.1, p.2.Value))
          ++ d.Dimensions.map (fun p => (p.1, GoValue.json (.str p.2)))) k))
      = em.metrics.reverse.findSome? (fun d => directiveValue d k) := by
    exact findSome?_fun_congr _ _ _ (fun d => lookupLast_directiveBlock d k)
  rw [hcongr]
  cases em.metrics.reverse.findSome? (fun d => directiveValue d k) <;>
    cases lookupLast em.properties k <;>
    cases reservedValue env k <;> simp

theorem lookupLast_allWrites_ne (env : List (String × String)) (now : Int)
    (em : EmbeddedMetric) (k : String) (h : k ≠ "_aws") :
    lookupLast (allWrites env now em) k
      = (specMergedValue em k).or (reservedValue env k) := by
  unfold allWrites
  rw [lookupLast_concat]
  have : ("_aws" == k) = false := by
    simp [beq_iff_eq]
    exact fun e => h e.symm
  rw [this]
  · simp [lookupLast_jsonMapWrites]

theorem lookupLast_allWrites_aws (env : List (String × String)) (now : Int)
    (em : EmbeddedMetric) :
    lookupLast (allWrites env now em) "_aws"
      = some (GoValue.json (emfToJ (emfOf now em))) := by
  unfold allWrites
  rw [lookupLast_concat]
  simp

/-! ### Canonicalized-map and marshaling lemmas -/

theorem canonKeys_nodup (l : List (String × GoValue)) :
    (canonKeys l).Nodup :=
  (List.perm_insertionSort strLe (l.map Prod.fst).dedup).symm.nodup
    (List.nodup_dedup (l.map Prod.fst))

theorem mem_canonKeys (l : List (String × GoValue)) (k : String) :
    k ∈ canonKeys l ↔ k ∈ l.map Prod.fst :=
  ((List.perm_insertionSort strLe (l.map Prod.fst).dedup).mem_iff).trans
    List.mem_dedup

theorem canonPairs_mem (l : List (String × GoValue)) (k : String)
    (v : GoValue) (h : lookupLast l k = some v) : (k, v) ∈ canonPairs l := by
  have hs : (lookupLast l k).isSome := by rw [h]; rfl
  have hk : k ∈ canonKeys l :=
    (mem_canonKeys l k).2 ((lookupLast_isSome_iff l k).1 hs)
  exact List.mem_filterMap.2 ⟨k, hk, by rw [h]; rfl⟩

theorem filterMapKeys_sublist (g : String → Option GoValue)
    (ks : List String) :
    ((ks.filterMap (fun k => (g k).map (fun v => (k, v)))).map
      Prod.fst).Sublist ks := by
  induction ks with
  | nil => simp
  | cons a ks ih =>
    cases h : g a with
    | none =>
      rw [List.filterMap_cons, h]
      exact ih.cons a
    | some v =>
      rw [List.filterMap_cons, h]
      simpa using ih.cons₂ a

theorem canonPairs_keys_nodup (l : List (String × GoValue)) :
    ((canonPairs l).map Prod.fst).Nodup :=
  (canonKeys_nodup l).sublist
    (filterMapKeys_sublist (fun k => lookupLast l k) (canonKeys l))

theorem marshalPairs_ok_forall₂ (l : List (String × GoValue))
    (r : List (String × JValue)) (h : marshalPairs l = Except.ok r) :
    List.Forall₂ (fun p q => p.1 = q.1 ∧ tryValue p.2 = Except.ok q.2) l r := by
  induction l generalizing r with
  | nil =>
    cases h
    exact List.Forall₂.nil
  | cons p l ih =>
    rw [marshalPairs] at h
    cases htv : tryValue p.2 with
    | error e =>
      rw [htv] at h
      cases h
    | ok jv =>
      rw [htv] at h
      cases hrec : marshalPairs l with
      | error e =>
        rw [hrec] at h
        cases h
      | ok r' =>
        rw [hrec] at h
        cases h
        exact List.Forall₂.cons ⟨rfl, htv⟩ (ih r' hrec)

theorem forall₂_keys_eq {l : List (String × GoValue)}
    {r : List (String × JValue)}
    (h : List.Forall₂ (fun p q => p.1 = q.1 ∧ tryValue p.2 = Except.ok q.2)
      l r) :
    r.map Prod.fst = l.map Prod.fst := by
  induction h with
  | nil => rfl
  | cons h1 _ ih => simp [h1.1, ih]

theorem forall₂_exists_right {R : α → β → Prop} {l : List α} {r : List β}
    {a : α} (h : List.Forall₂ R l r) (ha : a ∈ l) : ∃ b ∈ r, R a b := by
  induction h with
  | nil => cases ha
  | cons h1 h2 ih =>
    rcases List.mem_cons.1 ha with rfl | ha'
    · exact ⟨_, List.mem_cons_self _ _, h1⟩
    · rcases ih ha' with ⟨b, hb, hr⟩
      exact ⟨b, List.mem_cons_of_mem _ hb, hr⟩

theorem find?_key_of_mem_nodup {β : Type u} {r : List (String × β)}
    {k : String} {v : β} (hnd : (r.map Prod.fst).Nodup) (hm : (k, v) ∈ r) :
    r.find? (fun p => p.1 == k) = some (k, v) := by
  induction r with
  | nil => cases hm
  | cons p r ih =>
    rcases List.mem_cons.1 hm with rfl | hm'
    · simp [List.find?_cons]
    · have hnd0 : p.1 ∉ r.map Prod.fst ∧ (r.map Prod.fst).Nodup := by
        rw [List.map_cons] at hnd
        exact List.nodup_cons.1 hnd
      have hpk : p.1 ≠ k := fun e =>
        hnd0.1 (e ▸ List.mem_map.2 ⟨(k, v), hm', rfl⟩)
      rw [List.find?_cons_of_neg _ (by simp [hpk])]
      exact ih hnd0.2 hm'

theorem marshal_lookup_some {env : List (String × String)} {now : Int}
    {em : EmbeddedMetric} {j : JValue} {k : String} {gv : GoValue}
    (hj : marshalJSONObj env now em = Except.ok j)
    (hl : lookupLast (allWrites env now em) k = some gv) :
    ∃ jv, tryValue gv = Except.ok jv ∧ jObjLookup j k = some jv := by
  unfold marshalJSONObj at hj
  cases hr : marshalPairs (canonPairs (allWrites env now em)) with
  | error e =>
    rw [hr] at hj
    cases hj
  | ok r =>
    rw [hr] at hj
    rw [show (Except.ok r : Except String (List (String × JValue))).map
      JValue.obj = Except.ok (JValue.obj r) from rfl] at hj
    cases hj
    have hf := marshalPairs_ok_forall₂ _ _ hr
    have hmem := canonPairs_mem _ _ _ hl
    rcases forall₂_exists_right hf hmem with ⟨q, hqr, hq1, hq2⟩
    have hnd : (r.map Prod.fst).Nodup := by
      rw [forall₂_keys_eq hf]
      exact canonPairs_keys_nodup _
    rcases q with ⟨q1, q2⟩
    cases hq1
    refine ⟨q2, hq2, ?_⟩
    simp only [jObjLookup]
    rw [find?_key_of_mem_nodup hnd hqr]
    rfl

theorem jObjLookup_mem_keys {j : JValue} {k : String} {jv : JValue}
    (h : jObjLookup j k = some jv) : k ∈ jObjKeys j := by
  cases j with
  | obj kvs =>
    simp only [jObjLookup] at h
    cases hf : kvs.find? (fun p => p.1 == k) with
    | none => rw [hf] at h; cases h
    | some p =>
      have hp : p ∈ kvs := List.mem_of_find?_eq_some hf
      have hpk := List.find?_some hf
      exact (beq_iff_eq.1 hpk) ▸ List.mem_map.2 ⟨p, hp, rfl⟩
  | str s => simp [jObjLookup] at h
  | num n => simp [jObjLookup] at h
  | arr xs => simp [jObjLookup] at h

/-! ### Map-assignment, property-merge and environment lemmas -/

theorem any_keys_iff (m : List (String × α)) (k : String) :
    (m.any (fun p => p.1 == k)) = true ↔ k ∈ m.map Prod.fst := by
  rw [List.any_eq_true]
  constructor
  · rintro ⟨p, hp, he⟩
    exact List.mem_map.2 ⟨p, hp, beq_iff_eq.1 he⟩
  · intro h
    rcases List.mem_map.1 h with ⟨p, hp, rfl⟩
    exact ⟨p, hp, beq_iff_eq.2 rfl⟩

theorem find?_replace (m : List (String × α)) (k : String) (v : α)
    (h : m.any (fun p => p.1 == k) = true) :
    (m.map (fun p => if p.1 == k then (k, v) else p)).find?
      (fun p => p.1 == k) = some (k, v) := by
  induction m with
  | nil => simp at h
  | cons p m ih =>
    by_cases hp : (p.1 == k) = true
    · simp only [List.map_cons, hp, if_true]
      exact List.find?_cons_of_pos _ (beq_iff_eq.2 rfl)
    · have h' : m.any (fun p => p.1 == k) = true := by
        rcases List.any_eq_true.1 h with ⟨q, hq, hqk⟩
        rcases List.mem_cons.1 hq with rfl | hq'
        · exact absurd hqk hp
        · exact List.any_eq_true.2 ⟨q, hq', hqk⟩
      simp only [List.map_cons, hp, if_false, Bool.false_eq_true]
      rw [@List.find?_cons_of_neg _ (fun q => q.1 == k) p _ hp]
      exact ih h'

theorem lookupLast_mapSet_self (m : List (String × α)) (k : String)
    (v : α) : lookupLast (mapSet m k v) k = some v := by
  unfold mapSet
  by_cases h : m.any (fun p => p.1 == k) = true
  · rw [if_pos h]
    unfold lookupLast
    have hrev : m.reverse.any (fun p => p.1 == k) = true := by
      rw [any_keys_iff, List.map_reverse, List.mem_reverse,
        ← any_keys_iff]
      exact h
    rw [← List.map_reverse, find?_replace m.reverse k v hrev]
    rfl
  · rw [if_neg h, lookupLast_concat]
    simp

theorem mapSet_keys_of_mem (m : List (String × α)) (k : String) (v : α)
    (h : m.any (fun p => p.1 == k) = true) :
    (mapSet m k v).map Prod.fst = m.map Prod.fst := by
  unfold mapSet
  rw [if_pos h, List.map_map]
  apply List.map_congr_left
  intro p _
  by_cases hpk : (p.1 == k) = true
  · simp [hpk, (beq_iff_eq.1 hpk).symm]
  · have hne : p.1 ≠ k := by simpa using hpk
    simp [hne]

theorem mapSet_keys_of_not_mem (m : List (String × α)) (k : String)
    (v : α) (h : ¬ m.any (fun p => p.1 == k) = true) :
    (mapSet m k v).map Prod.fst = m.map Prod.fst ++ [k] := by
  unfold mapSet
  rw [if_neg h, List.map_append]
  rfl

theorem withProperty_metrics (em : EmbeddedMetric) (k : String)
    (v : GoValue) : (withProperty em k v).metrics = em.metrics := rfl

theorem mergeProps_metrics (em : EmbeddedMetric)
    (addl : List (String × GoValue)) :
    (mergeProps em addl).metrics = em.metrics := by
  induction addl generalizing em with
  | nil => rfl
  | cons p addl ih =>
    rw [mergeProps, List.foldl_cons]
    exact ih (withProperty em p.1 p.2)

theorem mergeProps_concat (em : EmbeddedMetric)
    (addl : List (String × GoValue)) (k : String) (v : GoValue) :
    mergeProps em (addl ++ [(k, v)])
      = withProperty (mergeProps em addl) k v := by
  unfold mergeProps
  rw [List.foldl_append]
  rfl

theorem envStep_skip (m : List (String × String)) (e : String)
    (h : (goSplitOnEq e).length ≠ 2) : envStep m e = m := by
  unfold envStep
  generalize hsp : goSplitOnEq e = l at h ⊢
  rcases l with _ | ⟨a, _ | ⟨b, _ | ⟨c, t⟩⟩⟩
  · rfl
  · rfl
  · simp at h
  · rfl

theorem buildEnvMap_filter (environ : List String) :
    buildEnvMap environ
      = buildEnvMap
          (environ.filter (fun e => (goSplitOnEq e).length == 2)) := by
  unfold buildEnvMap
  suffices h : ∀ acc, environ.foldl envStep acc
      = (environ.filter
          (fun e => (goSplitOnEq e).length == 2)).foldl envStep acc from
    h []
  induction environ with
  | nil =>
    intro acc
    rfl
  | cons e l ih =>
    intro acc
    by_cases he : ((goSplitOnEq e).length == 2) = true
    · rw [show List.filter (fun e => (goSplitOnEq e).length == 2) (e :: l)
            = e :: List.filter (fun e => (goSplitOnEq e).length == 2) l by
          simp [List.filter_cons, he],
        List.foldl_cons, List.foldl_cons]
      exact ih (envStep acc e)
    · rw [show List.filter (fun e => (goSplitOnEq e).length == 2) (e :: l)
            = List.filter (fun e => (goSplitOnEq e).length == 2) l by
          simp [List.filter_cons, he],
        List.foldl_cons, envStep_skip acc e (by simpa using he)]
      exact ih acc

/-! ### Key-order and permutation lemmas -/

theorem charsLe_total : ∀ a b : List Char,
    charsLe a b = true ∨ charsLe b a = true := by
  intro a
  induction a with
  | nil =>
    intro b
    left
    rfl
  | cons x as ih =>
    intro b
    cases b with
    | nil =>
      right
      rfl
    | cons y bs =>
      by_cases hxy : x = y
      · subst hxy
        rcases ih bs with h | h
        · left
          simpa [charsLe] using h
        · right
          simpa [charsLe] using h
      · rcases lt_or_gt_of_ne hxy with h | h
        · left
          simp [charsLe, hxy, h]
        · right
          simp [charsLe, Ne.symm hxy, h]

theorem charsLe_trans : ∀ a b c : List Char,
    charsLe a b = true → charsLe b c = true → charsLe a c = true := by
  intro a
  induction a with
  | nil =>
    intro b c _ _
    rfl
  | cons x as ih =>
    intro b c hab hbc
    cases b with
    | nil => simp [charsLe] at hab
    | cons y bs =>
      cases c with
      | nil => simp [charsLe] at hbc
      | cons z cs =>
        simp only [charsLe] at hab hbc ⊢
        by_cases hxy : x = y
        · subst hxy
          by_cases hyz : x = z
          · subst hyz
            rw [if_pos rfl] at hab hbc ⊢
            exact ih bs cs hab hbc
          · rw [if_pos rfl] at hab
            rw [if_neg hyz] at hbc ⊢
            exact hbc
        · rw [if_neg hxy] at hab
          have hlt1 : x < y := of_decide_eq_true hab
          by_cases hyz : y = z
          · subst hyz
            rw [if_neg hxy]
            exact hab
          · rw [if_neg hyz] at hbc
            have hlt2 : y < z := of_decide_eq_true hbc
            have hxz : x < z := lt_trans hlt1 hlt2
            rw [if_neg (ne_of_lt hxz)]
            exact decide_eq_true hxz

theorem charsLe_antisymm : ∀ a b : List Char,
    charsLe a b = true → charsLe b a = true → a = b := by
  intro a
  induction a with
  | nil =>
    intro b _ hba
    cases b with
    | nil => rfl
    | cons y bs => simp [charsLe] at hba
  | cons x as ih =>
    intro b hab hba
    cases b with
    | nil => simp [charsLe] at hab
    | cons y bs =>
      simp only [charsLe] at hab hba
      by_cases hxy : x = y
      · subst hxy
        rw [if_pos rfl] at hab hba
        rw [ih bs hab hba]
      · rw [if_neg hxy] at hab
        rw [if_neg (Ne.symm hxy)] at hba
        exact absurd (of_decide_eq_true hba)
          (lt_asymm (of_decide_eq_true hab))

instance : IsTotal String strLe :=
  ⟨fun a b => charsLe_total a.data b.data⟩

instance : IsTrans String strLe :=
  ⟨fun a b c hab hbc => charsLe_trans a.data b.data c.data hab hbc⟩

instance : IsAntisymm String strLe :=
  ⟨fun a b hab hba => by
    cases a with
    | mk da =>
      cases b with
      | mk db =>
        have h : da = db := charsLe_antisymm da db hab hba
        rw [h]⟩

theorem lookupLast_mem {m : List (String × α)} {k : String} {v : α}
    (h : lookupLast m k = some v) : (k, v) ∈ m := by
  unfold lookupLast at h
  cases hf : m.reverse.find? (fun p => p.1 == k) with
  | none =>
    rw [hf] at h
    cases h
  | some p =>
    rw [hf] at h
    have hp0 := List.find?_some hf
    have hp1 := beq_iff_eq.1 hp0
    have hpm := List.mem_reverse.1 (List.mem_of_find?_eq_some hf)
    have hv : p.2 = v := by cases h; rfl
    have hpe : p = (k, v) := by
      cases p
      simp_all
    exact hpe ▸ hpm

theorem lookupLast_of_mem_nodup {m : List (String × α)} {k : String}
    {v : α} (hnd : (m.map Prod.fst).Nodup) (hm : (k, v) ∈ m) :
    lookupLast m k = some v := by
  unfold lookupLast
  have hndr : (m.reverse.map Prod.fst).Nodup := by
    rw [List.map_reverse]
    exact List.nodup_reverse.2 hnd
  rw [find?_key_of_mem_nodup hndr (List.mem_reverse.2 hm)]
  rfl

theorem lookupLast_perm {m1 m2 : List (String × α)} (hp : m1.Perm m2)
    (hnd : (m1.map Prod.fst).Nodup) (k : String) :
    lookupLast m1 k = lookupLast m2 k := by
  cases h1 : lookupLast m1 k with
  | none =>
    cases h2 : lookupLast m2 k with
    | none => rfl
    | some v =>
      have hm2 := lookupLast_mem h2
      have hm1 : (k, v) ∈ m1 := hp.symm.subset hm2
      rw [lookupLast_of_mem_nodup hnd hm1] at h1
      cases h1
  | some v =>
    have hm1 := lookupLast_mem h1
    have hnd2 : (m2.map Prod.fst).Nodup := (hp.map Prod.fst).nodup hnd
    rw [lookupLast_of_mem_nodup hnd2 (hp.subset hm1)]

theorem forall₂_and_mem {R : α → β → Prop} {P : α → Prop} :
    ∀ {l1 : List α} {l2 : List β}, List.Forall₂ R l1 l2 →
      (∀ a ∈ l1, P a) → List.Forall₂ (fun a b => R a b ∧ P a) l1 l2 := by
  intro l1 l2 h hp
  induction h with
  | nil => exact .nil
  | cons h1 _ ih =>
    exact .cons ⟨h1, hp _ (List.mem_cons_self _ _)⟩
      (ih (fun a ha => hp a (List.mem_cons_of_mem _ ha)))

theorem forall₂_reverse {R : α → β → Prop} {l1 : List α} {l2 : List β}
    (h : List.Forall₂ R l1 l2) :
    List.Forall₂ R l1.reverse l2.reverse :=
  List.forall₂_reverse_iff.2 h

theorem findSome?_congr_rel {R : α → β → Prop} {g1 : α → Option γ}
    {g2 : β → Option γ} (hg : ∀ a b, R a b → g1 a = g2 b) :
    ∀ {l1 : List α} {l2 : List β}, List.Forall₂ R l1 l2 →
      l1.findSome? g1 = l2.findSome? g2 := by
  intro l1 l2 h
  induction h with
  | nil => rfl
  | cons h1 _ ih => simp [List.findSome?_cons, hg _ _ h1, ih]

theorem forall₂_flatMap_perm {R : α → β → Prop} {f : α → List γ}
    {g : β → List γ} (hg : ∀ a b, R a b → (f a).Perm (g b)) :
    ∀ {l1 : List α} {l2 : List β}, List.Forall₂ R l1 l2 →
      (l1.flatMap f).Perm (l2.flatMap g) := by
  intro l1 l2 h
  induction h with
  | nil => exact .refl _
  | cons h1 _ ih =>
    rw [List.flatMap_cons, List.flatMap_cons]
    exact (hg _ _ h1).append ih

theorem forall₂_map_rel {R : α → β → Prop} {S : γ → δ → Prop}
    {f : α → γ} {g : β → δ} (h : ∀ a b, R a b → S (f a) (g b)) :
    ∀ {l1 : List α} {l2 : List β}, List.Forall₂ R l1 l2 →
      List.Forall₂ S (l1.map f) (l2.map g) := by
  intro l1 l2 hf
  induction hf with
  | nil => exact .nil
  | cons h1 _ ih => exact .cons (h _ _ h1) ih

theorem directiveValue_congr {d1 d2 : MetricDirective}
    (h : DirectiveSameState d1 d2) (hm : (d1.Metrics.map Prod.fst).Nodup)
    (hd : (d1.Dimensions.map Prod.fst).Nodup) (k : String) :
    directiveValue d1 k = directiveValue d2 k := by
  unfold directiveValue
  rw [lookupLast_perm h.2.2 hd k, lookupLast_perm h.2.1 hm k]

theorem specMergedValue_congr {em1 em2 : EmbeddedMetric}
    (hs : SameState em1 em2) (hn : MapsNodup em1) (k : String) :
    specMergedValue em1 k = specMergedValue em2 k := by
  unfold specMergedValue
  rw [lookupLast_perm hs.1 hn.1 k]
  congr 1
  exact findSome?_congr_rel
    (fun a b hab => directiveValue_congr hab.1 hab.2.1 hab.2.2 k)
    (forall₂_reverse (forall₂_and_mem hs.2 (fun d hd => hn.2 d hd)))

theorem directiveBlock_keys_perm {d1 d2 : MetricDirective}
    (h : DirectiveSameState d1 d2) :
    ((d1.Metrics.map (fun p => (p.1, p.2.Value))
        ++ d1.Dimensions.map (fun p => (p.1, GoValue.json (.str p.2))))).Perm
      (d2.Metrics.map (fun p => (p.1, p.2.Value))
        ++ d2.Dimensions.map (fun p => (p.1, GoValue.json (.str p.2)))) :=
  (h.2.1.map _).append (h.2.2.map _)

theorem allWrites_keys_perm {env : List (String × String)} {now : Int}
    {em1 em2 : EmbeddedMetric} (hs : SameState em1 em2) :
    ((allWrites env now em1).map Prod.fst).Perm
      ((allWrites env now em2).map Prod.fst) := by
  unfold allWrites jsonMapWrites
  have hflat :
      (em1.metrics.flatMap (fun d =>
        d.Metrics.map (fun p => (p.1, p.2.Value))
          ++ d.Dimensions.map (fun p => (p.1, GoValue.json (.str p.2))))).Perm
      (em2.metrics.flatMap (fun d =>
        d.Metrics.map (fun p => (p.1, p.2.Value))
          ++ d.Dimensions.map (fun p => (p.1, GoValue.json (.str p.2))))) :=
    forall₂_flatMap_perm (fun a b hab => directiveBlock_keys_perm hab) hs.2
  simp only [List.map_append]
  refine List.Perm.append (List.Perm.append
    (List.Perm.append (List.Perm.refl _) (hs.1.map Prod.fst))
    (hflat.map Prod.fst)) ?_
  simp only [List.map_cons, List.map_nil]
  exact List.Perm.refl _

theorem canonKeys_perm_eq {l1 l2 : List (String × GoValue)}
    (hp : (l1.map Prod.fst).Perm (l2.map Prod.fst)) :
    canonKeys l1 = canonKeys l2 := by
  unfold canonKeys
  exact @List.eq_of_perm_of_sorted String strLe _ _ _
    (((List.perm_insertionSort strLe _).trans hp.dedup).trans
      (List.perm_insertionSort strLe _).symm)
    (List.sorted_insertionSort strLe _)
    (List.sorted_insertionSort strLe _)

theorem emfOf_elemEquiv {now : Int} {em1 em2 : EmbeddedMetric}
    (hs : SameState em1 em2) :
    List.Forall₂ ElemPermEquiv (emfOf now em1).CloudWatchMetrics
      (emfOf now em2).CloudWatchMetrics := by
  unfold emfOf
  exact forall₂_map_rel
    (fun d1 d2 h => ⟨h.1, h.2.1.map _, h.2.2.map _⟩) hs.2

/-! ### Remaining helper lemmas -/

theorem marshalPairs_error {l : List (String × GoValue)} {e : String}
    (h : marshalPairs l = Except.error e) :
    ∃ p ∈ l, tryValue p.2 = Except.error e := by
  induction l with
  | nil => cases h
  | cons p l ih =>
    rw [marshalPairs] at h
    cases htv : tryValue p.2 with
    | error e' =>
      rw [htv] at h
      cases h
      exact ⟨p, List.mem_cons_self _ _, htv⟩
    | ok jv =>
      rw [htv] at h
      cases hrec : marshalPairs l with
      | error e' =>
        rw [hrec] at h
        cases h
        rcases ih hrec with ⟨q, hq, hqe⟩
        exact ⟨q, List.mem_cons_of_mem _ hq, hqe⟩
      | ok r =>
        rw [hrec] at h
        cases h

theorem canonPairs_mem_inv {l : List (String × GoValue)} {k' : String}
    {gv : GoValue} (h : (k', gv) ∈ canonPairs l) :
    lookupLast l k' = some gv := by
  rcases List.mem_filterMap.1 h with ⟨k0, _, hg⟩
  cases hl : lookupLast l k0 with
  | none =>
    rw [hl] at hg
    cases hg
  | some v =>
    rw [hl] at hg
    have hg2 : (k0, v) = (k', gv) := by
      cases hg
      rfl
    have hk : k0 = k' := congrArg Prod.fst hg2
    have hv : v = gv := congrArg Prod.snd hg2
    rw [← hk, ← hv]
    exact hl

theorem dimensionWarnings_stdout {em : EmbeddedMetric} {ev : Sink × String}
    (h : ev ∈ dimensionWarnings em) : ev.1 = Sink.stdout := by
  rcases List.mem_filterMap.1 h with ⟨d, _, hd⟩
  by_cases h9 : d.Dimensions.length > 9
  · rw [if_pos h9] at hd
    cases hd
    rfl
  · rw [if_neg h9] at hd
    cases hd

theorem writeFailureReports_stdout {werr : Option String}
    {ev : Sink × String} (h : ev ∈ writeFailureReports werr) :
    ev.1 = Sink.stdout := by
  cases werr with
  | none => cases h
  | some e =>
    rcases List.mem_singleton.1 h with rfl
    rfl

/-! ### The claims -/

/-- C1: for every `EmbeddedMetric`, the encoded output's
`_aws.CloudWatchMetrics` holds one element per directive in
directive-creation order; the element for a directive with `N` metric
bindings and `M` dimension bindings has exactly `N` `{Name, Unit}`
entries in `Metrics` — their names exactly the metric names, with no
duplicates or omissions under the Go-map no-duplicate-key invariant —
and exactly `M` single-element arrays in `Dimensions`, each holding
exactly one of the `M` dimension names, with no duplicates and no
omissions. -/
theorem C1_cloudwatch_metrics_shape (env : List (String × String))
    (now : Int) (em : EmbeddedMetric) (j : JValue)
    (hj : marshalJSONObj env now em = Except.ok j) :
    jObjLookup j "_aws" = some (emfToJ (emfOf now em))
    ∧ (emfOf now em).CloudWatchMetrics = em.metrics.map directiveElem
    ∧ ∀ d ∈ em.metrics,
        (directiveElem d).Namespace = d.nspace
        ∧ (directiveElem d).Metrics.length = d.Metrics.length
        ∧ (directiveElem d).Metrics.map
            EmfAWSCloudWatchMetricsElemMetricsElem.Name
            = d.Metrics.map Prod.fst
        ∧ ((d.Metrics.map Prod.fst).Nodup →
            ((directiveElem d).Metrics.map
              EmfAWSCloudWatchMetricsElemMetricsElem.Name).Nodup)
        ∧ (directiveElem d).Dimensions.length = d.Dimensions.length
        ∧ (∀ g ∈ (directiveElem d).Dimensions,
            ∃ k, k ∈ d.Dimensions.map Prod.fst ∧ g = [k])
        ∧ (∀ k ∈ d.Dimensions.map Prod.fst,
            [k] ∈ (directiveElem d).Dimensions)
        ∧ ((d.Dimensions.map Prod.fst).Nodup →
            (directiveElem d).Dimensions.Nodup) := by
  refine ⟨?_, rfl, ?_⟩
  · rcases marshal_lookup_some hj (lookupLast_allWrites_aws env now em)
      with ⟨jv, htv, hlk⟩
    cases htv
    exact hlk
  · intro d _
    refine ⟨rfl, by simp [directiveElem], ?_, ?_, by simp [directiveElem],
      ?_, ?_, ?_⟩
    · simp [directiveElem, List.map_map]
    · intro hnd
      have he : (directiveElem d).Metrics.map
          EmfAWSCloudWatchMetricsElemMetricsElem.Name
          = d.Metrics.map Prod.fst := by
        simp [directiveElem, List.map_map]
      rw [he]
      exact hnd
    · intro g hg
      rcases List.mem_map.1 hg with ⟨p, hp, rfl⟩
      exact ⟨p.1, List.mem_map.2 ⟨p, hp, rfl⟩, rfl⟩
    · intro k hk
      rcases List.mem_map.1 hk with ⟨p, hp, rfl⟩
      exact List.mem_map.2 ⟨p, hp, rfl⟩
    · intro hnd
      have he : (directiveElem d).Dimensions
          = (d.Dimensions.map Prod.fst).map (fun k => [k]) := by
        simp [directiveElem, List.map_map]
      rw [he]
      exact hnd.map (fun a b hab => by simpa using hab)

/-- C1 witness: the shape theorem applied to a concrete
one-metric-one-dimension instance. -/
theorem C1_witness :
    jObjLookup exJ1 "_aws" = some (emfToJ (emfOf 0 exEm1))
    ∧ (directiveElem exD1).Metrics.length = exD1.Metrics.length
    ∧ (directiveElem exD1).Dimensions.Nodup := by
  have h := C1_cloudwatch_metrics_shape [] 0 exEm1 exJ1 (by rfl)
  have hd := h.2.2 exD1 (by simp [exEm1])
  exact ⟨h.1, hd.2.1, hd.2.2.2.2.2.2.2 (by decide)⟩

/-- C2: the encoded top-level object is the flat merge, by key, of the
property bag and then each directive's metric values followed by its
dimension values, directives in creation order; for every key other
than `_aws` the final value equals the spec-side merge (later write
wins, with the reserved environment fields as the lowest priority),
the encoded object's member reflects exactly that value, and a
marshaling error can only come from a surviving (post-overwrite)
value — collisions themselves never raise one. -/
theorem C2_flat_merge (env : List (String × String)) (now : Int)
    (em : EmbeddedMetric) (k : String) (hne : k ≠ "_aws") :
    lookupLast (allWrites env now em) k
      = (specMergedValue em k).or (reservedValue env k)
    ∧ (∀ j, marshalJSONObj env now em = Except.ok j →
        ∀ gv, lookupLast (allWrites env now em) k = some gv →
          ∃ jv, tryValue gv = Except.ok jv ∧ jObjLookup j k = some jv)
    ∧ (∀ e, marshalJSONObj env now em = Except.error e →
        ∃ k' gv, lookupLast (allWrites env now em) k' = some gv
          ∧ tryValue gv = Except.error e) := by
  refine ⟨lookupLast_allWrites_ne env now em k hne,
    fun j hj gv hgv => marshal_lookup_some hj hgv, ?_⟩
  intro e he
  unfold marshalJSONObj at he
  cases hr : marshalPairs (canonPairs (allWrites env now em)) with
  | ok r =>
    rw [hr] at he
    cases he
  | error e' =>
    rw [hr] at he
    cases he
    rcases marshalPairs_error hr with ⟨p, hp, hpe⟩
    rcases p with ⟨k', gv⟩
    exact ⟨k', gv, canonPairs_mem_inv hp, hpe⟩

/-- C2 witness: on the concrete instance the merged value of the
metric key `Latency` is its raw value, and the encoded object carries
it. -/
theorem C2_witness :
    lookupLast (allWrites [] 0 exEm1) "Latency"
      = (specMergedValue exEm1 "Latency").or (reservedValue [] "Latency")
    ∧ jObjLookup exJ1 "Latency" = some (JValue.num 42) := by
  have h := C2_flat_merge [] 0 exEm1 "Latency" (by decide)
  refine ⟨h.1, ?_⟩
  rcases h.2.1 exJ1 (by rfl) (GoValue.json (JValue.num 42)) (by rfl)
    with ⟨jv, htv, hlk⟩
  cases htv
  exact hlk

/-- C3 counterexample: a property named `log_group_name` overwrites
the reserved field, so with an empty environment snapshot the encoded
value is the property's value `"X"`, not the snapshot entry `""` the
claim requires. -/
theorem C3_counterexample :
    marshalJSONObj [] 0 exEmColl = Except.ok exJColl
    ∧ envLookup [] "AWS_LAMBDA_LOG_GROUP_NAME" = ""
    ∧ jObjLookup exJColl "log_group_name" = some (JValue.str "X")
    ∧ ¬ jObjLookup exJColl "log_group_name" = some (JValue.str "") := by
  refine ⟨rfl, rfl, rfl, fun h => ?_⟩
  have h1 : jObjLookup exJColl "log_group_name"
      = some (JValue.str "X") := rfl
  rw [h1] at h
  injection h with h2
  injection h2 with h3
  exact absurd h3 (by decide)

/-- C3 amended: both reserved keys (with the literal spellings
`log_group_name` and `log_steam_name`) and `_aws` are always present
in the encoded output; the reserved values equal the
environment-snapshot entries whenever no property, metric or dimension
writes the same key; with zero directives `CloudWatchMetrics` is
empty. -/
theorem C3_reserved_fields (env : List (String × String)) (now : Int)
    (em : EmbeddedMetric) (j : JValue)
    (hj : marshalJSONObj env now em = Except.ok j) :
    "log_group_name" ∈ jObjKeys j
    ∧ "log_steam_name" ∈ jObjKeys j
    ∧ jObjLookup j "_aws" = some (emfToJ (emfOf now em))
    ∧ (em.metrics = [] → (emfOf now em).CloudWatchMetrics = [])
    ∧ (specMergedValue em "log_group_name" = none →
        jObjLookup j "log_group_name"
          = some (JValue.str (envLookup env "AWS_LAMBDA_LOG_GROUP_NAME")))
    ∧ (specMergedValue em "log_steam_name" = none →
        jObjLookup j "log_steam_name"
          = some (JValue.str (envLookup env "AWS_LAMBDA_LOG_STREAM_NAME"))) := by
  have hg := lookupLast_allWrites_ne env now em "log_group_name" (by decide)
  have hst := lookupLast_allWrites_ne env now em "log_steam_name" (by decide)
  have hresg : reservedValue env "log_group_name"
      = some (GoValue.json (JValue.str
          (envLookup env "AWS_LAMBDA_LOG_GROUP_NAME"))) := by
    simp [reservedValue]
  have hress : reservedValue env "log_steam_name"
      = some (GoValue.json (JValue.str
          (envLookup env "AWS_LAMBDA_LOG_STREAM_NAME"))) := by
    simp [reservedValue]
  have hgmem : "log_group_name" ∈ jObjKeys j := by
    cases hsp : specMergedValue em "log_group_name" with
    | none =>
      rw [hsp, hresg] at hg
      rcases marshal_lookup_some hj hg with ⟨jv, htv, hlk⟩
      exact jObjLookup_mem_keys hlk
    | some gv =>
      rw [hsp] at hg
      rcases marshal_lookup_some hj hg with ⟨jv, htv, hlk⟩
      exact jObjLookup_mem_keys hlk
  have hsmem : "log_steam_name" ∈ jObjKeys j := by
    cases hsp : specMergedValue em "log_steam_name" with
    | none =>
      rw [hsp, hress] at hst
      rcases marshal_lookup_some hj hst with ⟨jv, htv, hlk⟩
      exact jObjLookup_mem_keys hlk
    | some gv =>
      rw [hsp] at hst
      rcases marshal_lookup_some hj hst with ⟨jv, htv, hlk⟩
      exact jObjLookup_mem_keys hlk
  refine ⟨hgmem, hsmem, ?_, fun h => by simp [emfOf, h], ?_, ?_⟩
  · rcases marshal_lookup_some hj (lookupLast_allWrites_aws env now em)
      with ⟨jv, htv, hlk⟩
    cases htv
    exact hlk
  · intro hsp
    rw [hsp, hresg] at hg
    rcases marshal_lookup_some hj hg with ⟨jv, htv, hlk⟩
    cases htv
    exact hlk
  · intro hsp
    rw [hsp, hress] at hst
    rcases marshal_lookup_some hj hst with ⟨jv, htv, hlk⟩
    cases htv
    exact hlk

/-- C3 witness: the amended theorem applied to the empty
`EmbeddedMetric` with an empty snapshot. -/
theorem C3_witness :
    "log_group_name" ∈ jObjKeys exJ0
    ∧ "log_steam_name" ∈ jObjKeys exJ0
    ∧ jObjLookup exJ0 "log_group_name" = some (JValue.str "")
    ∧ (emfOf 0 exEm0).CloudWatchMetrics = [] := by
  have h := C3_reserved_fields [] 0 exEm0 exJ0 (by rfl)
  exact ⟨h.1, h.2.1, h.2.2.2.2.1 (by rfl), h.2.2.2.1 rfl⟩

/-- C4: a directive with more than nine dimensions produces the
non-fatal warning on the diagnostic channel, yet the record line is
still written, the directive's element is still encoded in full (each
dimension as its own single-element array), and every one of its
dimension names still appears as a top-level key of the encoded
object. -/
theorem C4_dimension_overflow (env : List (String × String)) (now : Int)
    (em : EmbeddedMetric) (addl : List (String × GoValue)) (sink : Sink)
    (werr : Option String) (d : MetricDirective) (hd : d ∈ em.metrics)
    (hover : 9 < d.Dimensions.length) :
    (Sink.stdout, dimensionWarningMsg d.Dimensions.length)
        ∈ (publishToSink env now em addl sink werr).events
    ∧ (sink, publishLine env now (mergeProps em addl))
        ∈ (publishToSink env now em addl sink werr).events
    ∧ directiveElem d ∈ (emfOf now (mergeProps em addl)).CloudWatchMetrics
    ∧ (∀ p ∈ d.Dimensions, [p.1] ∈ (directiveElem d).Dimensions)
    ∧ (∀ j, marshalJSONObj env now (mergeProps em addl) = Except.ok j →
        ∀ p ∈ d.Dimensions, p.1 ∈ jObjKeys j) := by
  refine ⟨?_, ?_, ?_, ?_, ?_⟩
  · have hw : (Sink.stdout, dimensionWarningMsg d.Dimensions.length)
        ∈ dimensionWarnings em :=
      List.mem_filterMap.2 ⟨d, hd, by rw [if_pos hover]⟩
    simp only [publishToSink]
    exact List.mem_append.2 (Or.inl (List.mem_append.2 (Or.inl hw)))
  · simp only [publishToSink]
    exact List.mem_append.2 (Or.inl (List.mem_append.2 (Or.inr
      (List.mem_singleton.2 rfl))))
  · unfold emfOf
    rw [mergeProps_metrics]
    exact List.mem_map.2 ⟨d, hd, rfl⟩
  · intro p hp
    exact List.mem_map.2 ⟨p, hp, rfl⟩
  · intro j hj p hp
    have hdm : d ∈ (mergeProps em addl).metrics := by
      rw [mergeProps_metrics]
      exact hd
    have hmem : (p.1, GoValue.json (JValue.str p.2))
        ∈ allWrites env now (mergeProps em addl) := by
      unfold allWrites jsonMapWrites
      refine List.mem_append.2 (Or.inl (List.mem_append.2 (Or.inr ?_)))
      exact List.mem_flatMap.2 ⟨d, hdm,
        List.mem_append.2 (Or.inr (List.mem_map.2 ⟨p, hp, rfl⟩))⟩
    have hsome : (lookupLast (allWrites env now (mergeProps em addl))
        p.1).isSome :=
      (lookupLast_isSome_iff _ _).2 (List.mem_map.2 ⟨_, hmem, rfl⟩)
    rcases Option.isSome_iff_exists.1 hsome with ⟨gv, hgv⟩
    rcases marshal_lookup_some hj hgv with ⟨jv, _, hlk⟩
    exact jObjLookup_mem_keys hlk

/-- C4 witness: the overflow theorem applied to a concrete
ten-dimension directive. -/
theorem C4_witness :
    (Sink.stdout, dimensionWarningMsg 10)
        ∈ (publishToSink [] 0 exEm10 [] (Sink.writer 0) none).events
    ∧ [("d0" : String)] ∈ (directiveElem exD10).Dimensions
    ∧ ("d0" : String) ∈ jObjKeys exJ10 := by
  have h := C4_dimension_overflow [] 0 exEm10 [] (Sink.writer 0) none
    exD10 (by simp [exEm10]) (by decide)
  exact ⟨h.1, h.2.2.2.1 ("d0", "v") (by simp [exD10]),
    h.2.2.2.2 exJ10 (by rfl) ("d0", "v") (by simp [exD10])⟩

/-- C5: a publish call performs exactly the warning writes, one write
of a single line to the sink — the encoded record when marshaling
succeeds, the human-readable error line when it fails — and the
failed-write report; every write goes to the sink or to the
diagnostic standard output, and nothing is returned to the caller
beyond the merged state. -/
theorem C5_publish_never_errors (env : List (String × String))
    (now : Int) (em : EmbeddedMetric) (addl : List (String × GoValue))
    (sink : Sink) (werr : Option String) :
    (publishToSink env now em addl sink werr).events
      = dimensionWarnings em
        ++ [(sink, publishLine env now (mergeProps em addl))]
        ++ writeFailureReports werr
    ∧ ((∃ s, marshalJSON env now (mergeProps em addl) = Except.ok s
          ∧ publishLine env now (mergeProps em addl) = s)
       ∨ (∃ e, marshalJSON env now (mergeProps em addl) = Except.error e
          ∧ publishLine env now (mergeProps em addl)
              = "Error publishing metric: " ++ e))
    ∧ (∀ ev ∈ (publishToSink env now em addl sink werr).events,
        ev.1 = sink ∨ ev.1 = Sink.stdout)
    ∧ (publishToSink env now em addl sink werr).finalEm
        = mergeProps em addl := by
  refine ⟨rfl, ?_, ?_, rfl⟩
  · cases h : marshalJSON env now (mergeProps em addl) with
    | ok s => exact Or.inl ⟨s, rfl, by rw [publishLine, h]⟩
    | error e => exact Or.inr ⟨e, rfl, by rw [publishLine, h]⟩
  · intro ev hev
    simp only [publishToSink] at hev
    rcases List.mem_append.1 hev with h1 | h2
    · rcases List.mem_append.1 h1 with hw | hm
      · exact Or.inr (dimensionWarnings_stdout hw)
      · rcases List.mem_singleton.1 hm with rfl
        exact Or.inl rfl
    · exact Or.inr (writeFailureReports_stdout h2)

/-- C5 witness: on an instance holding an unmarshalable value the
single sink line is the human-readable error line, on the caller's
sink. -/
theorem C5_witness :
    publishLine [] 0 (mergeProps exEmBad [])
      = "Error publishing metric: json: unsupported type: chan int"
    ∧ (((Sink.writer 0,
        "Error publishing metric: json: unsupported type: chan int")
          : Sink × String).1 = Sink.writer 0
      ∨ ((Sink.writer 0,
        "Error publishing metric: json: unsupported type: chan int")
          : Sink × String).1 = Sink.stdout) := by
  have h := C5_publish_never_errors [] 0 exEmBad [] (Sink.writer 0) none
  exact ⟨rfl, h.2.2.1 ((Sink.writer 0,
    "Error publishing metric: json: unsupported type: chan int"))
    (by decide)⟩

/-- C6 counterexample: diagnostics are written by `fmt.Printf` to the
process standard output, which IS the sink of `Publish`; with a
ten-dimension directive published to standard output the warning goes
to the very stream the record goes to, refuting the claim that the
diagnostic stream is separate from the sink for every choice of sink. -/
theorem C6_counterexample :
    ¬ (∀ (em : EmbeddedMetric) (werr : Option String) (sink : Sink),
        ∀ ev ∈ dimensionWarnings em ++ writeFailureReports werr,
          ev.1 ≠ sink) := by
  intro h
  exact h exEm10 none Sink.stdout (Sink.stdout, dimensionWarningMsg 10)
    (by decide) rfl

/-- C6 amended: every diagnostic write (dimension warning or
failed-write report) goes to the process standard output, so the
diagnostic stream is separate from the sink exactly when the sink is
not standard output; when the sink is standard output (as in
`Publish`) the diagnostics share the sink's stream. -/
theorem C6_diagnostics_channel (env : List (String × String))
    (now : Int) (em : EmbeddedMetric) (addl : List (String × GoValue))
    (sink : Sink) (werr : Option String) :
    (∀ ev ∈ dimensionWarnings em ++ writeFailureReports werr,
        ev.1 = Sink.stdout)
    ∧ (sink ≠ Sink.stdout →
        ∀ ev ∈ dimensionWarnings em ++ writeFailureReports werr,
          ev.1 ≠ sink)
    ∧ (publishToSink env now em addl sink werr).events
        = dimensionWarnings em
          ++ [(sink, publishLine env now (mergeProps em addl))]
          ++ writeFailureReports werr := by
  have hstd : ∀ ev ∈ dimensionWarnings em ++ writeFailureReports werr,
      ev.1 = Sink.stdout := by
    intro ev hev
    rcases List.mem_append.1 hev with h1 | h2
    · exact dimensionWarnings_stdout h1
    · exact writeFailureReports_stdout h2
  refine ⟨hstd, ?_, rfl⟩
  intro hs ev hev heq
  exact hs (heq ▸ hstd ev hev)

/-- C6 witness: with a writer sink distinct from standard output the
concrete warning event is on the diagnostic channel and not on the
sink. -/
theorem C6_witness :
    ((Sink.stdout, dimensionWarningMsg 10) : Sink × String).1
        = Sink.stdout
    ∧ ((Sink.stdout, dimensionWarningMsg 10) : Sink × String).1
        ≠ Sink.writer 0 := by
  have h := C6_diagnostics_channel [] 0 exEm10 [] (Sink.writer 0) none
  exact ⟨h.1 _ (by decide), h.2.1 (by decide) _ (by decide)⟩

/-- C7: two `WithProperty` calls with the same key leave exactly one
binding for it, holding the latest value; the call changes nothing but
the property bag (the observable content of returning the same
receiver, enabling chaining); and the additional-properties merge of
`PublishToSink` obeys the same last-write-wins rule. -/
theorem C7_with_property_last_write (em : EmbeddedMetric) (k : String)
    (v1 v2 : GoValue) :
    (withProperty (withProperty em k v1) k v2).metrics = em.metrics
    ∧ lookupLast (withProperty (withProperty em k v1) k v2).properties k
        = some v2
    ∧ ((em.properties.map Prod.fst).Nodup →
        ((withProperty (withProperty em k v1) k v2).properties.map
            Prod.fst).count k = 1
        ∧ ((withProperty (withProperty em k v1) k v2).properties.map
            Prod.fst).Nodup)
    ∧ (∀ env now addl sink werr,
        (publishToSink env now em addl sink werr).finalEm
          = mergeProps em addl)
    ∧ (∀ addl v,
        lookupLast (mergeProps em (addl ++ [(k, v)])).properties k
          = some v) := by
  refine ⟨rfl, lookupLast_mapSet_self _ _ _, ?_,
    fun env now addl sink werr => rfl, ?_⟩
  · intro hnd
    by_cases hk : k ∈ em.properties.map Prod.fst
    · have h1 : (mapSet em.properties k v1).map Prod.fst
          = em.properties.map Prod.fst :=
        mapSet_keys_of_mem _ _ _ ((any_keys_iff _ _).2 hk)
      have h2 : (mapSet (mapSet em.properties k v1) k v2).map Prod.fst
          = em.properties.map Prod.fst := by
        rw [mapSet_keys_of_mem _ _ _ ((any_keys_iff _ _).2 (h1 ▸ hk)), h1]
      constructor
      · rw [show (withProperty (withProperty em k v1) k v2).properties
            = mapSet (mapSet em.properties k v1) k v2 from rfl, h2]
        exact List.count_eq_one_of_mem hnd hk
      · rw [show (withProperty (withProperty em k v1) k v2).properties
            = mapSet (mapSet em.properties k v1) k v2 from rfl, h2]
        exact hnd
    · have hany : ¬ em.properties.any (fun p => p.1 == k) = true :=
        fun hh => hk ((any_keys_iff _ _).1 hh)
      have h1 : (mapSet em.properties k v1).map Prod.fst
          = em.properties.map Prod.fst ++ [k] :=
        mapSet_keys_of_not_mem _ _ _ hany
      have hk2 : k ∈ (mapSet em.properties k v1).map Prod.fst := by
        rw [h1]
        exact List.mem_append.2 (Or.inr (List.mem_singleton.2 rfl))
      have h2 : (mapSet (mapSet em.properties k v1) k v2).map Prod.fst
          = em.properties.map Prod.fst ++ [k] := by
        rw [mapSet_keys_of_mem _ _ _ ((any_keys_iff _ _).2 hk2), h1]
      constructor
      · rw [show (withProperty (withProperty em k v1) k v2).properties
            = mapSet (mapSet em.properties k v1) k v2 from rfl, h2,
          List.count_append]
        rw [List.count_eq_zero_of_not_mem hk]
        simp
      · rw [show (withProperty (withProperty em k v1) k v2).properties
            = mapSet (mapSet em.properties k v1) k v2 from rfl, h2]
        exact List.nodup_append.2 ⟨hnd, List.nodup_singleton k,
          fun a ha hb => hk ((List.mem_singleton.1 hb) ▸ ha)⟩
  · intro addl v
    rw [mergeProps_concat]
    exact lookupLast_mapSet_self _ _ _

/-- C7 witness: the last-write-wins theorem applied to the empty
instance with two writes of the key `k`. -/
theorem C7_witness :
    lookupLast (withProperty (withProperty exEm0 "k"
        (GoValue.json (JValue.num 1))) "k"
        (GoValue.json (JValue.num 2))).properties "k"
      = some (GoValue.json (JValue.num 2))
    ∧ ((withProperty (withProperty exEm0 "k"
        (GoValue.json (JValue.num 1))) "k"
        (GoValue.json (JValue.num 2))).properties.map Prod.fst).count "k"
      = 1 := by
  have h := C7_with_property_last_write exEm0 "k"
    (GoValue.json (JValue.num 1)) (GoValue.json (JValue.num 2))
  exact ⟨h.2.1, (h.2.2.1 (by decide)).1⟩

/-- C8 counterexample: two enumerations of the same Go-map state (the
same two metric bindings, iterated in the two possible orders) are
`SameState`, yet their encodings differ — the `Metrics` array order
follows the unspecified map iteration order, so byte-identical output
for every encoding of the same state is refuted. -/
theorem C8_counterexample :
    ¬ (∀ (env : List (String × String)) (now : Int)
        (em1 em2 : EmbeddedMetric), SameState em1 em2 → MapsNodup em1 →
        marshalJSON env now em1 = marshalJSON env now em2) := by
  intro h
  have hss : SameState exEmA exEmB :=
    ⟨List.Perm.refl _,
      List.Forall₂.cons ⟨rfl, List.Perm.swap _ _ _, List.Perm.refl _⟩
        List.Forall₂.nil⟩
  have hnd : MapsNodup exEmA := by
    refine ⟨by decide, ?_⟩
    intro d hd
    rcases List.mem_singleton.1 hd with rfl
    exact ⟨by decide, by decide⟩
  exact absurd (h [] 0 exEmA exEmB hss hnd) (by decide)

/-- C8 amended: encoding the same state is deterministic up to the
order of elements inside each directive's `Metrics` and `Dimensions`
arrays: two same-state instances produce the same final value for
every flattened key, the same sorted top-level key list, and
`CloudWatchMetrics` elements equal up to permutation of those two
arrays. -/
theorem C8_determinism_up_to_array_order (env : List (String × String))
    (now : Int) (em1 em2 : EmbeddedMetric) (hs : SameState em1 em2)
    (hn : MapsNodup em1) :
    (∀ k, k ≠ "_aws" →
      lookupLast (allWrites env now em1) k
        = lookupLast (allWrites env now em2) k)
    ∧ canonKeys (allWrites env now em1) = canonKeys (allWrites env now em2)
    ∧ List.Forall₂ ElemPermEquiv (emfOf now em1).CloudWatchMetrics
        (emfOf now em2).CloudWatchMetrics := by
  refine ⟨?_, canonKeys_perm_eq (allWrites_keys_perm hs),
    emfOf_elemEquiv hs⟩
  intro k hk
  rw [lookupLast_allWrites_ne env now em1 k hk,
    lookupLast_allWrites_ne env now em2 k hk,
    specMergedValue_congr hs hn k]

/-- C8 witness: the amended theorem applied to the two concrete
enumerations of one state. -/
theorem C8_witness :
    canonKeys (allWrites [] 0 exEmA) = canonKeys (allWrites [] 0 exEmB)
    ∧ lookupLast (allWrites [] 0 exEmA) "A"
        = lookupLast (allWrites [] 0 exEmB) "A" := by
  have hss : SameState exEmA exEmB :=
    ⟨List.Perm.refl _,
      List.Forall₂.cons ⟨rfl, List.Perm.swap _ _ _, List.Perm.refl _⟩
        List.Forall₂.nil⟩
  have hnd : MapsNodup exEmA := by
    refine ⟨by decide, ?_⟩
    intro d hd
    rcases List.mem_singleton.1 hd with rfl
    exact ⟨by decide, by decide⟩
  have h := C8_determinism_up_to_array_order [] 0 exEmA exEmB hss hnd
  exact ⟨h.2.1, h.1 "A" (by decide)⟩

/-- C9 counterexample: the timestamp equals the clock value passed at
encode time, so two successive encodes within the same millisecond
(clock value 5 both times) yield equal timestamps, refuting the claim
that two successive encodes always produce different timestamps. -/
theorem C9_counterexample :
    ¬ (∀ (em : EmbeddedMetric) (t1 t2 : Int), t1 ≤ t2 →
        (emfOf t1 em).Timestamp ≠ (emfOf t2 em).Timestamp) := by
  intro h
  exact h exEm0 5 5 le_rfl rfl

/-- C9 amended: the `_aws.Timestamp` field equals the
millisecond clock value captured at the encode call — not anything
recorded at directive-creation time — so timestamps of successive
encodes are non-decreasing in call order, and differ exactly when the
millisecond clock advanced. -/
theorem C9_timestamp_fresh (env : List (String × String))
    (em : EmbeddedMetric) (now t1 t2 : Int) :
    (emfOf now em).Timestamp = now
    ∧ (∀ j, marshalJSONObj env now em = Except.ok j →
        jObjLookup j "_aws" = some (emfToJ (emfOf now em))
        ∧ jObjLookup (emfToJ (emfOf now em)) "Timestamp"
            = some (JValue.num now))
    ∧ (t1 ≤ t2 → (emfOf t1 em).Timestamp ≤ (emfOf t2 em).Timestamp) := by
  refine ⟨rfl, ?_, fun h => h⟩
  intro j hj
  rcases marshal_lookup_some hj (lookupLast_allWrites_aws env now em)
    with ⟨jv, htv, hlk⟩
  cases htv
  exact ⟨hlk, rfl⟩

/-- C9 witness: the freshness theorem applied at clock 7 to the
concrete instance. -/
theorem C9_witness :
    jObjLookup (emfToJ (emfOf 7 exEm0)) "Timestamp"
      = some (JValue.num 7)
    ∧ (emfOf 5 exEm0).Timestamp ≤ (emfOf 6 exEm0).Timestamp := by
  have h := C9_timestamp_fresh [] exEm0 7 5 6
  exact ⟨(h.2.1 ((marshalJSONObj [] 7 exEm0).toOption.getD (JValue.num 0))
    (by rfl)).2, h.2.2 (by norm_num)⟩

/-- C10: the startup snapshot keeps exactly the entries whose raw
`KEY=VALUE` text splits into two parts on `=`; an entry whose value
contains `=` splits into three or more parts and is silently dropped,
so `AWS_LAMBDA_LOG_GROUP_NAME=a=b` leaves the snapshot without the
variable and the reserved output field is the empty string. -/
theorem C10_env_split_exactly_two :
    (∀ environ : List String,
      buildEnvMap environ
        = buildEnvMap (environ.filter
            (fun e => (goSplitOnEq e).length == 2)))
    ∧ goSplitOnEq "AWS_LAMBDA_LOG_GROUP_NAME=a=b"
        = ["AWS_LAMBDA_LOG_GROUP_NAME", "a", "b"]
    ∧ buildEnvMap ["AWS_LAMBDA_LOG_GROUP_NAME=a=b"] = []
    ∧ envLookup (buildEnvMap ["AWS_LAMBDA_LOG_GROUP_NAME=a=b"])
        "AWS_LAMBDA_LOG_GROUP_NAME" = ""
    ∧ jObjLookup ((marshalJSONObj
          (buildEnvMap ["AWS_LAMBDA_LOG_GROUP_NAME=a=b"]) 0
          exEm0).toOption.getD (JValue.num 0)) "log_group_name"
        = some (JValue.str "") := by
  exact ⟨buildEnvMap_filter, rfl, rfl, rfl, rfl⟩

end StructuredMetric
